import Mathlib

/-!
Shallow embedding of the scale_server_rust repository (src/scale_server.rs,
src/scale_listener.rs): a UDP-to-websocket fan-out relay.  Pure data and
per-connection state are translated directly; the websocket send handle is
replaced by a success oracle `ok : Nat → Bool` giving the outcome of the one
send attempted for a given connection id during a pass.
-/

namespace Scale

/-- The control byte 0x02 separating senderId and payload in a datagram. -/
def ctlChar : Char := '\x02'

/-- Rust `str::split` on a one-character separator: fields between occurrences
of the separator; the empty string yields one empty field. -/
def splitOnChar (sep : Char) : List Char → List (List Char)
  | [] => [[]]
  | c :: rest =>
    if c = sep then [] :: splitOnChar sep rest
    else
      match splitOnChar sep rest with
      | [] => [[c]]
      | f :: fs => (c :: f) :: fs

/-- UTF-8 encoding of one character (code point to bytes, as `str::as_bytes`). -/
def charUtf8 (c : Char) : List Nat :=
  let n := c.toNat
  if n < 128 then [n]
  else if n < 2048 then [192 + n / 64, 128 + n % 64]
  else if n < 65536 then [224 + n / 4096, 128 + n / 64 % 64, 128 + n % 64]
  else [240 + n / 262144, 128 + n / 4096 % 64, 128 + n / 64 % 64, 128 + n % 64]

/-- UTF-8 bytes of a string, as Rust `str::as_bytes`. -/
def utf8Bytes (s : String) : List Nat :=
  (s.data.map charUtf8).flatten

/-- The standard base64 alphabet (rustc_serialize `base64::STANDARD`). -/
def b64Alphabet : List Char :=
  ("ABCDEFGHIJKLMNOPQRSTUVWXYZabcdefghijklmnopqrstuvwxyz0123456789+/").data

/-- Character for a 6-bit group. -/
def b64Char (n : Nat) : Char := b64Alphabet.getD n 'A'

/-- Standard base64 with `=` padding, as `ToBase64::to_base64(base64::STANDARD)`. -/
def base64Encode : List Nat → List Char
  | [] => []
  | [a] => [b64Char (a / 4), b64Char (a % 4 * 16), '=', '=']
  | [a, b] => [b64Char (a / 4), b64Char (a % 4 * 16 + b / 16), b64Char (b % 16 * 4), '=']
  | a :: b :: c :: rest =>
    b64Char (a / 4) :: b64Char (a % 4 * 16 + b / 16) ::
      b64Char (b % 16 * 4 + c / 64) :: b64Char (c % 64) :: base64Encode rest

/-- One websocket subscriber session (struct `Connection`); the send handle is
not part of the data, its behavior is the oracle passed to each pass. -/
structure Connection where
  id : Nat
  filter_scale_ids : Option (List String)
  last_message_sent : Option String
deriving DecidableEq

/-- `Connection::matches_filter`: `filter_scale_ids.map_or(true, |ids| ids.contains(scale_id))`. -/
def Connection.matches_filter (c : Connection) (scale_id : String) : Bool :=
  match c.filter_scale_ids with
  | none => true
  | some ids => ids.contains scale_id

/-- `Connection::is_duplicate`: `last_message_sent.map_or(false, |last| last == message)`. -/
def Connection.is_duplicate (c : Connection) (message : String) : Bool :=
  match c.last_message_sent with
  | none => false
  | some last => last == message

/-- `ScaleServer::message_to_json`: the literal format string
`\x7b"scaleId":"<id>","data":"<base64 payload bytes>"\x7d`, with no escaping. -/
def message_to_json (scale_id message : String) : String :=
  "\x7b\"scaleId\":\"" ++ scale_id ++ "\",\"data\":\"" ++
    String.mk (base64Encode (utf8Bytes message)) ++ "\"\x7d"

/-- `ScaleServer::extract_message`: split the datagram on the 0x02 byte; a
message exists exactly when the split has exactly two fields. -/
def extract_message (message : String) : Option (String × String) :=
  let splits := splitOnChar ctlChar message.data
  if splits.length = 2 then
    some (String.mk (splits.getD 0 []), String.mk (splits.getD 1 []))
  else none

/-- `ScaleServer::parse_scale_ids`: collect the comma-splits of every query
pair whose key is `ids`; a nonempty collection is the filter, else none.
The URL query string itself is parsed by the external `url` crate; here the
query is already the list of decoded (key, value) pairs. -/
def parse_scale_ids (query_pairs : List (String × String)) : Option (List String) :=
  let filter_scale_ids :=
    (query_pairs.filter (fun p => p.1 == "ids")).flatMap
      (fun p => (splitOnChar ',' p.2.data).map String.mk)
  if filter_scale_ids.length > 0 then some filter_scale_ids else none

/-- The registry state of `struct ScaleServer` (the listener handle aside):
the session map and the monotone id counter.  The `HashMap` is embedded as
the list of its entries, keyed by `Connection.id`. -/
structure ScaleServer where
  connections : List Connection
  next_connection_id : Nat
deriving DecidableEq

/-- `ScaleServer::add_connection`: allocate the next id, insert a fresh
session (`last_message_sent = None`), bump the counter, return the id. -/
def add_connection (s : ScaleServer) (filter_scale_ids : Option (List String)) :
    ScaleServer × Nat :=
  let id := s.next_connection_id
  let connection : Connection := ⟨id, filter_scale_ids, none⟩
  (⟨s.connections ++ [connection], s.next_connection_id + 1⟩, id)

/-- `ScaleServer::remove_connection`: delete the entry with that id, if any. -/
def remove_connection (s : ScaleServer) (connection_id : Nat) : ScaleServer :=
  ⟨s.connections.filter (fun c => !(c.id == connection_id)), s.next_connection_id⟩

/-- Whether `remove_connection` logs its "close" line: exactly when an entry
with that id is present in the map. -/
def remove_logs_close (s : ScaleServer) (connection_id : Nat) : Bool :=
  s.connections.any (fun c => c.id == connection_id)

/-- `ScaleServer::clear_message_history`: reset `last_message_sent` of the
session with that id, if present. -/
def clear_message_history (s : ScaleServer) (client_id : Nat) : ScaleServer :=
  ⟨s.connections.map
      (fun c => if c.id == client_id then { c with last_message_sent := none } else c),
    s.next_connection_id⟩

/-- The body of the loop in `ScaleServer::forward_message` (lines 227-234) for
one session: when the filter matches and the payload is not a duplicate, the
frame is sent (outcome given by the oracle) and `last_message_sent` is set to
the payload unconditionally; a failed send records the id.  Returns the
updated session, the frame delivered (on success), and the recorded id (on
failure). -/
def forward_step (ok : Nat → Bool) (scale_id payload : String) (c : Connection) :
    Connection × Option (Nat × String) × Option Nat :=
  if c.matches_filter scale_id && !(c.is_duplicate payload) then
    ({ c with last_message_sent := some payload },
      if ok c.id then some (c.id, message_to_json scale_id payload) else none,
      if ok c.id then none else some c.id)
  else (c, none, none)

/-- Result of one `forward_message` pass: the new registry state, the frames
delivered (connection id, frame text), and the ids recorded as erred. -/
structure ForwardResult where
  state : ScaleServer
  sent : List (Nat × String)
  erred : List Nat
deriving DecidableEq

/-- `ScaleServer::forward_message`: parse the datagram (return unchanged on
failure), run the loop body over every session, then remove the erred ids
after the full iteration. -/
def forward_message (ok : Nat → Bool) (s : ScaleServer) (raw : String) : ForwardResult :=
  match extract_message raw with
  | none => ⟨s, [], []⟩
  | some (scale_id, payload) =>
    let sent := s.connections.filterMap (fun x => (forward_step ok scale_id payload x).2.1)
    let erred := s.connections.filterMap (fun x => (forward_step ok scale_id payload x).2.2)
    ⟨erred.foldl remove_connection
        ⟨s.connections.map (fun x => (forward_step ok scale_id payload x).1),
          s.next_connection_id⟩,
      sent, erred⟩

/-- Number of frames delivered to a given connection id in one forward pass. -/
def framesTo (i : Nat) (r : ForwardResult) : Nat :=
  (r.sent.filter (fun x => x.1 == i)).length

/-- `ScaleServer::send_heartbeats`: attempt an empty frame on every session,
record the failing ids, remove them after the iteration.  Returns the new
state and the recorded ids. -/
def send_heartbeats (ok : Nat → Bool) (s : ScaleServer) : ScaleServer × List Nat :=
  let remove_ids := (s.connections.filter (fun c => !(ok c.id))).map (fun c => c.id)
  (remove_ids.foldl remove_connection s, remove_ids)

/-- The registry state of `struct ScaleListener`: observer ids and the
monotone observer id counter (the mpsc senders are not data). -/
structure ScaleListener where
  next_observer_id : Nat
  observers : List Nat
deriving DecidableEq

/-- `ScaleListener::add_observer`: allocate the next id, insert, bump. -/
def add_observer (l : ScaleListener) : ScaleListener × Nat :=
  let id := l.next_observer_id
  (⟨l.next_observer_id + 1, l.observers ++ [id]⟩, id)

/-- `ScaleListener::remove_observer`. -/
def remove_observer (l : ScaleListener) (id : Nat) : ScaleListener :=
  ⟨l.next_observer_id, l.observers.filter (fun x => !(x == id))⟩

/-- The whole process state: the websocket session registry and the UDP
listener's observer registry. -/
structure Sys where
  server : ScaleServer
  listener : ScaleListener
deriving DecidableEq

/-- The operations the running process performs on the two registries. -/
inductive SysOp where
  | addConn : Option (List String) → SysOp
  | removeConn : Nat → SysOp
  | clearHist : Nat → SysOp
  | fwd : String → SysOp
  | hb : SysOp
  | addObs : SysOp
  | removeObs : Nat → SysOp

/-- One registry operation; returns the new state and the id returned by
`add_connection` / `add_observer` when the operation is an add. -/
def sysStep (ok : Nat → Bool) (s : Sys) : SysOp → Sys × Option Nat × Option Nat
  | SysOp.addConn f =>
    let r := add_connection s.server f
    (⟨r.1, s.listener⟩, some r.2, none)
  | SysOp.removeConn i => (⟨remove_connection s.server i, s.listener⟩, none, none)
  | SysOp.clearHist i => (⟨clear_message_history s.server i, s.listener⟩, none, none)
  | SysOp.fwd raw => (⟨(forward_message ok s.server raw).state, s.listener⟩, none, none)
  | SysOp.hb => (⟨(send_heartbeats ok s.server).1, s.listener⟩, none, none)
  | SysOp.addObs =>
    let r := add_observer s.listener
    (⟨s.server, r.1⟩, none, some r.2)
  | SysOp.removeObs i => (⟨s.server, remove_observer s.listener i⟩, none, none)

/-- Run a sequence of operations, collecting the connection ids and the
observer ids returned by the adds, in order. -/
def runOps (ok : Nat → Bool) (s : Sys) : List SysOp → List Nat × List Nat
  | [] => ([], [])
  | op :: ops =>
    let r := sysStep ok s op
    let rest := runOps ok r.1 ops
    (r.2.1.toList ++ rest.1, r.2.2.toList ++ rest.2)

/-- A character safe inside an unescaped JSON string literal: not a quote,
not a backslash, not a control character. -/
def jsonSafe (c : Char) : Prop := c ≠ '"' ∧ c ≠ '\\' ∧ 32 ≤ c.toNat

instance : DecidablePred jsonSafe := fun c => by unfold jsonSafe; infer_instance

/-- Consume a prefix: `dropLead pat l = some rest` iff `l = pat ++ rest`. -/
def dropLead : List Char → List Char → Option (List Char)
  | [], rest => some rest
  | _ :: _, [] => none
  | p :: ps, c :: cs => if c = p then dropLead ps cs else none

/-- Decode a JSON string literal body up to its closing quote, handling the
escape sequences the common JSON subset uses; rejects raw control characters
and unterminated strings.  Returns the decoded content and the remainder
after the closing quote. -/
def parseJsonStringAux : List Char → Option (List Char × List Char)
  | [] => none
  | c :: rest =>
    if c = '"' then some ([], rest)
    else if c = '\\' then
      match rest with
      | [] => none
      | e :: rest' =>
        let dec : Option Char :=
          if e = '"' ∨ e = '\\' ∨ e = '/' then some e
          else if e = 'n' then some '\n'
          else if e = 't' then some '\t'
          else if e = 'r' then some '\r'
          else none
        match dec with
        | none => none
        | some d => (parseJsonStringAux rest').map (fun q => (d :: q.1, q.2))
    else if c.toNat < 32 then none
    else (parseJsonStringAux rest).map (fun q => (c :: q.1, q.2))

/-- Recognize exactly a well-formed two-key JSON object
`\x7b"scaleId":<string>,"data":<string>\x7d` and return the decoded key
values; any other text (unescaped quotes, trailing garbage, missing
delimiters) is rejected. -/
def parseFrameL (l : List Char) : Option (String × String) :=
  match dropLead ("\x7b\"scaleId\":\"").data l with
  | none => none
  | some r1 =>
    match parseJsonStringAux r1 with
    | none => none
    | some (k1, r2) =>
      match dropLead (",\"data\":\"").data r2 with
      | none => none
      | some r3 =>
        match parseJsonStringAux r3 with
        | none => none
        | some (k2, r4) =>
          match dropLead ("\x7d").data r4 with
          | none => none
          | some r5 =>
            if r5 = [] then some (String.mk k1, String.mk k2) else none

/-- Frame recognizer on strings. -/
def parseFrame (s : String) : Option (String × String) := parseFrameL s.data

/-! Helper lemmas about the embedding. -/

theorem splitOnChar_ne_nil (sep : Char) (l : List Char) : splitOnChar sep l ≠ [] := by
  induction l with
  | nil => simp [splitOnChar]
  | cons c rest ih =>
    by_cases h : c = sep
    · simp [splitOnChar, h]
    · rcases hs : splitOnChar sep rest with _ | ⟨f, fs⟩ <;> simp [splitOnChar, h, hs]

theorem dropLead_append (xs ys : List Char) : dropLead xs (xs ++ ys) = some ys := by
  induction xs with
  | nil => rfl
  | cons p ps ih => simp [dropLead, ih]

theorem parseJsonStringAux_safe (content rest : List Char)
    (h : ∀ c ∈ content, jsonSafe c) :
    parseJsonStringAux (content ++ '"' :: rest) = some (content, rest) := by
  induction content with
  | nil =>
    rw [List.nil_append, parseJsonStringAux.eq_def]
    simp
  | cons c cs ih =>
    obtain ⟨h1, h2, h3⟩ := h c (List.mem_cons_self c cs)
    have hlt : ¬ c.toNat < 32 := by omega
    rw [List.cons_append, parseJsonStringAux.eq_def]
    simp only [if_neg h1, if_neg h2, if_neg hlt]
    rw [ih (fun x hx => h x (List.mem_cons_of_mem c hx))]
    rfl

theorem b64Alphabet_safe : ∀ c ∈ b64Alphabet, jsonSafe c := by decide

theorem b64Char_safe (n : Nat) : jsonSafe (b64Char n) := by
  have heq : b64Char n = (b64Alphabet.get? n).getD 'A' := by simp [b64Char, List.getD]
  rw [heq]
  cases h : b64Alphabet.get? n with
  | none => decide
  | some c => exact b64Alphabet_safe c (List.get?_mem h)

theorem base64Encode_safe : ∀ (bs : List Nat), ∀ c ∈ base64Encode bs, jsonSafe c
  | [] => by simp [base64Encode]
  | [a] => by
    intro c hc
    simp only [base64Encode, List.mem_cons, List.not_mem_nil, or_false] at hc
    rcases hc with rfl | rfl | rfl | rfl
    · exact b64Char_safe _
    · exact b64Char_safe _
    · decide
    · decide
  | [a, b] => by
    intro c hc
    simp only [base64Encode, List.mem_cons, List.not_mem_nil, or_false] at hc
    rcases hc with rfl | rfl | rfl | rfl
    · exact b64Char_safe _
    · exact b64Char_safe _
    · exact b64Char_safe _
    · decide
  | a :: b :: x :: rest => by
    intro c hc
    simp only [base64Encode, List.mem_cons] at hc
    rcases hc with rfl | rfl | rfl | rfl | h
    · exact b64Char_safe _
    · exact b64Char_safe _
    · exact b64Char_safe _
    · exact b64Char_safe _
    · exact base64Encode_safe rest c h

theorem forward_step_fst (ok : Nat → Bool) (sid p : String) (c : Connection) :
    (forward_step ok sid p c).1 =
      if (c.matches_filter sid && !(c.is_duplicate p)) = true
      then { c with last_message_sent := some p } else c := by
  unfold forward_step
  split <;> simp_all

theorem forward_step_sent (ok : Nat → Bool) (sid p : String) (a : Connection)
    (y : Nat × String) (h : (forward_step ok sid p a).2.1 = some y) :
    y = (a.id, message_to_json sid p)
      ∧ (a.matches_filter sid && !(a.is_duplicate p)) = true ∧ ok a.id = true := by
  unfold forward_step at h
  split at h
  · rename_i hcond
    by_cases ho : ok a.id = true
    · simp only [ho, if_true] at h
      simp only [Option.some.injEq] at h
      exact ⟨h.symm, hcond, ho⟩
    · simp [ho] at h
  · simp at h

theorem forward_step_err (ok : Nat → Bool) (sid p : String) (a : Connection)
    (i : Nat) (h : (forward_step ok sid p a).2.2 = some i) :
    i = a.id ∧ (a.matches_filter sid && !(a.is_duplicate p)) = true
      ∧ ok a.id = false := by
  unfold forward_step at h
  split at h
  · rename_i hcond
    by_cases ho : ok a.id = true
    · simp [ho] at h
    · simp only [ho, if_false, Bool.false_eq_true, Option.some.injEq] at h
      exact ⟨h.symm, hcond, Bool.not_eq_true _ ▸ ho⟩
  · simp at h

theorem mem_sent_forward (ok : Nat → Bool) (sid p : String) (l : List Connection)
    (y : Nat × String)
    (hy : y ∈ l.filterMap (fun x => (forward_step ok sid p x).2.1)) :
    ∃ x ∈ l, y.1 = x.id ∧ (x.matches_filter sid && !(x.is_duplicate p)) = true
      ∧ ok x.id = true ∧ y.2 = message_to_json sid p := by
  obtain ⟨x, hx, hfx⟩ := List.mem_filterMap.mp hy
  obtain ⟨hy', hc, ho⟩ := forward_step_sent ok sid p x y hfx
  exact ⟨x, hx, by rw [hy'], hc, ho, by rw [hy']⟩

theorem mem_erred_forward (ok : Nat → Bool) (sid p : String) (l : List Connection)
    (i : Nat) (hi : i ∈ l.filterMap (fun x => (forward_step ok sid p x).2.2)) :
    ∃ x ∈ l, i = x.id ∧ (x.matches_filter sid && !(x.is_duplicate p)) = true
      ∧ ok x.id = false := by
  obtain ⟨x, hx, hfx⟩ := List.mem_filterMap.mp hi
  obtain ⟨hi', hc, ho⟩ := forward_step_err ok sid p x i hfx
  exact ⟨x, hx, hi', hc, ho⟩

theorem foldl_remove_connections (ids : List Nat) (st : ScaleServer) :
    (ids.foldl remove_connection st).connections
      = st.connections.filter (fun c => !(ids.contains c.id)) := by
  induction ids generalizing st with
  | nil => simp
  | cons i is ih =>
    rw [List.foldl_cons, ih]
    simp only [remove_connection]
    rw [List.filter_filter]
    apply List.filter_congr
    intro c hc
    by_cases h : c.id = i <;> simp [h, List.contains_cons, Bool.and_comm]

theorem foldl_remove_next (ids : List Nat) (st : ScaleServer) :
    (ids.foldl remove_connection st).next_connection_id = st.next_connection_id := by
  induction ids generalizing st with
  | nil => rfl
  | cons i is ih => rw [List.foldl_cons, ih]; rfl

theorem conn_inj {l : List Connection} (hnd : (l.map Connection.id).Nodup)
    {x y : Connection} (hx : x ∈ l) (hy : y ∈ l) (hxy : x.id = y.id) : x = y :=
  List.inj_on_of_nodup_map hnd hx hy hxy

theorem forward_message_none (ok : Nat → Bool) (s : ScaleServer) (raw : String)
    (h : extract_message raw = none) : forward_message ok s raw = ⟨s, [], []⟩ := by
  simp [forward_message, h]

theorem forward_message_sent (ok : Nat → Bool) (s : ScaleServer) (raw sid p : String)
    (h : extract_message raw = some (sid, p)) :
    (forward_message ok s raw).sent
      = s.connections.filterMap (fun x => (forward_step ok sid p x).2.1) := by
  simp [forward_message, h]

theorem forward_message_erred (ok : Nat → Bool) (s : ScaleServer) (raw sid p : String)
    (h : extract_message raw = some (sid, p)) :
    (forward_message ok s raw).erred
      = s.connections.filterMap (fun x => (forward_step ok sid p x).2.2) := by
  simp [forward_message, h]

theorem forward_message_state_conns (ok : Nat → Bool) (s : ScaleServer)
    (raw sid p : String) (h : extract_message raw = some (sid, p)) :
    (forward_message ok s raw).state.connections
      = (s.connections.map (fun x => (forward_step ok sid p x).1)).filter
          (fun c =>
            !((s.connections.filterMap
                (fun x => (forward_step ok sid p x).2.2)).contains c.id)) := by
  simp only [forward_message, h]
  exact foldl_remove_connections _ _

theorem forward_message_state_next (ok : Nat → Bool) (s : ScaleServer)
    (raw sid p : String) (h : extract_message raw = some (sid, p)) :
    (forward_message ok s raw).state.next_connection_id = s.next_connection_id := by
  simp only [forward_message, h]
  exact foldl_remove_next _ _

theorem sent_filter_eq (ok : Nat → Bool) (sid p : String) (l : List Connection)
    (c : Connection) (hmem : c ∈ l) (hnd : (l.map Connection.id).Nodup)
    (hok : ∀ i, ok i = true) :
    (l.filterMap (fun x => (forward_step ok sid p x).2.1)).filter
        (fun y => y.1 == c.id)
      = if (c.matches_filter sid && !(c.is_duplicate p)) = true
        then [(c.id, message_to_json sid p)] else [] := by
  induction l with
  | nil => cases hmem
  | cons a l ih =>
    rw [List.map_cons, List.nodup_cons] at hnd
    obtain ⟨ha, hnd'⟩ := hnd
    rcases List.mem_cons.mp hmem with rfl | hm
    · have htail : (l.filterMap (fun x => (forward_step ok sid p x).2.1)).filter
          (fun y => y.1 == c.id) = [] := by
        refine List.filter_eq_nil_iff.mpr ?_
        intro y hy
        obtain ⟨x, hxl, hxid, _, _, _⟩ := mem_sent_forward ok sid p l y hy
        simp only [beq_iff_eq]
        intro hyc
        exact ha (List.mem_map.mpr ⟨x, hxl, by rw [← hxid, ← hyc]⟩)
      by_cases hc : (c.matches_filter sid && !(c.is_duplicate p)) = true
      · have hf : (forward_step ok sid p c).2.1 = some (c.id, message_to_json sid p) := by
          simp [forward_step, hc, hok c.id]
        rw [if_pos hc]
        simp only [List.filterMap_cons, hf]
        rw [List.filter_cons_of_pos (by simp), htail]
      · have hf : (forward_step ok sid p c).2.1 = none := by
          simp only [Bool.not_eq_true] at hc
          simp [forward_step, hc]
        rw [if_neg hc]
        simp only [List.filterMap_cons, hf]
        exact htail
    · have hac : (a.id == c.id) = false := by
        simp only [beq_eq_false_iff_ne, ne_eq]
        intro hEq
        exact ha (List.mem_map.mpr ⟨c, hm, hEq.symm⟩)
      cases hfa : (forward_step ok sid p a).2.1 with
      | none => simp only [List.filterMap_cons, hfa]; exact ih hm hnd'
      | some y =>
        obtain ⟨hy', _, _⟩ := forward_step_sent ok sid p a y hfa
        simp only [List.filterMap_cons, hfa]
        rw [List.filter_cons_of_neg (by simp [hy', hac]), ih hm hnd']

theorem framesTo_forward (ok : Nat → Bool) (s : ScaleServer) (raw sid p : String)
    (h : extract_message raw = some (sid, p)) (c : Connection)
    (hmem : c ∈ s.connections) (hnd : (s.connections.map Connection.id).Nodup)
    (hok : ∀ i, ok i = true) :
    framesTo c.id (forward_message ok s raw)
      = if (c.matches_filter sid && !(c.is_duplicate p)) = true then 1 else 0 := by
  rw [framesTo, forward_message_sent ok s raw sid p h,
    sent_filter_eq ok sid p s.connections c hmem hnd hok]
  by_cases hc : (c.matches_filter sid && !(c.is_duplicate p)) = true <;> simp [hc]

theorem forward_step_id (ok : Nat → Bool) (sid p : String) (c : Connection) :
    (forward_step ok sid p c).1.id = c.id := by
  unfold forward_step
  split <;> rfl

theorem dup_last (c : Connection) (p : String) (h : c.is_duplicate p = true) :
    c.last_message_sent = some p := by
  unfold Connection.is_duplicate at h
  cases hl : c.last_message_sent with
  | none => rw [hl] at h; cases h
  | some last => rw [hl] at h; simp at h; rw [h]

theorem erred_nil_of_ok (ok : Nat → Bool) (sid p : String) (l : List Connection)
    (hok : ∀ i, ok i = true) :
    l.filterMap (fun x => (forward_step ok sid p x).2.2) = [] := by
  refine List.filterMap_eq_nil_iff.mpr ?_
  intro x hx
  unfold forward_step
  split
  · simp [hok x.id]
  · rfl

theorem forward_ok_conns (ok : Nat → Bool) (s : ScaleServer) (raw sid p : String)
    (h : extract_message raw = some (sid, p)) (hok : ∀ i, ok i = true) :
    (forward_message ok s raw).state.connections
      = s.connections.map (fun x => (forward_step ok sid p x).1) := by
  rw [forward_message_state_conns ok s raw sid p h,
    erred_nil_of_ok ok sid p s.connections hok]
  simp

theorem stepped_map_id (ok : Nat → Bool) (sid p : String) (l : List Connection) :
    (l.map (fun x => (forward_step ok sid p x).1)).map Connection.id
      = l.map Connection.id := by
  rw [List.map_map]
  exact List.map_congr_left (fun x _ => forward_step_id ok sid p x)

theorem clear_map_id (st : ScaleServer) (i : Nat) :
    (clear_message_history st i).connections.map Connection.id
      = st.connections.map Connection.id := by
  simp only [clear_message_history, List.map_map]
  refine List.map_congr_left (fun x _ => ?_)
  simp only [Function.comp]
  split <;> rfl

theorem forward_next_eq (ok : Nat → Bool) (s : ScaleServer) (raw : String) :
    (forward_message ok s raw).state.next_connection_id = s.next_connection_id := by
  cases hex : extract_message raw with
  | none => rw [forward_message_none ok s raw hex]
  | some pr => exact forward_message_state_next ok s raw pr.1 pr.2 (by rw [hex])

theorem heartbeats_conns (ok : Nat → Bool) (s : ScaleServer) :
    (send_heartbeats ok s).1.connections
      = s.connections.filter
          (fun c => !(((s.connections.filter (fun x => !(ok x.id))).map
              (fun x => x.id)).contains c.id)) :=
  foldl_remove_connections _ _

theorem dropLead_self (xs : List Char) : dropLead xs xs = some [] := by
  have h := dropLead_append xs []
  rwa [List.append_nil] at h

/-! Claim theorems. -/

/-- C6: filter matching is pure set membership on the sender id — a session
with an absent filter matches every sender id, and a session with a present
filter matches a sender id exactly when that id is a member of the filter
set, with no other condition. -/
theorem c6_filter_matching (c : Connection) (sid : String) :
    (c.filter_scale_ids = none → c.matches_filter sid = true)
      ∧ (∀ ids, c.filter_scale_ids = some ids →
          (c.matches_filter sid = true ↔ sid ∈ ids)) := by
  constructor
  · intro h
    simp [Connection.matches_filter, h]
  · intro ids h
    simp [Connection.matches_filter, h]

/-- Witness for C6: a filterless session matches sender id 7; a session with
filter [1, 2] matches sender id 2, which is a member of that filter. -/
theorem c6_filter_matching_witness :
    ((⟨0, none, none⟩ : Connection).matches_filter "7" = true)
      ∧ ((⟨1, some ["1", "2"], none⟩ : Connection).matches_filter "2" = true
          ↔ "2" ∈ ["1", "2"]) :=
  ⟨(c6_filter_matching ⟨0, none, none⟩ "7").1 rfl,
    (c6_filter_matching ⟨1, some ["1", "2"], none⟩ "2").2 ["1", "2"] rfl⟩

/-- C5: splitting a datagram on the 0x02 control byte yields a message
exactly when the split has exactly two fields; the message is that pair of
fields; any other shape is dropped, producing zero outbound frames and no
state change. -/
theorem c5_extract_two_fields (m : String) :
    ((extract_message m).isSome = true
        ↔ (splitOnChar ctlChar m.data).length = 2)
      ∧ (∀ a b, extract_message m = some (a, b) →
          splitOnChar ctlChar m.data = [a.data, b.data])
      ∧ (extract_message m = none →
          ∀ (ok : Nat → Bool) (s : ScaleServer),
            forward_message ok s m = ⟨s, [], []⟩) := by
  refine ⟨?_, ?_, fun h ok s => forward_message_none ok s m h⟩
  · unfold extract_message
    by_cases h : (splitOnChar ctlChar m.data).length = 2 <;> simp [h]
  · intro a b hab
    unfold extract_message at hab
    by_cases h : (splitOnChar ctlChar m.data).length = 2
    · rw [if_pos h] at hab
      obtain ⟨x, y, hxy⟩ := List.length_eq_two.mp h
      rw [hxy] at hab ⊢
      simp only [List.getD, List.get?, Option.getD, Option.some.injEq,
        Prod.mk.injEq] at hab
      obtain ⟨ha, hb⟩ := hab
      rw [← ha, ← hb]
    · rw [if_neg h] at hab
      cases hab

/-- Witness for C5: the datagram 5 0x02 12.34 parses, a separator-free
datagram does not and its forward pass is a no-op. -/
theorem c5_extract_two_fields_witness :
    ((extract_message "5\x0212.34").isSome = true)
      ∧ splitOnChar ctlChar ("5\x0212.34").data = [("5").data, ("12.34").data]
      ∧ forward_message (fun _ => true) ⟨[], 0⟩ "abc" = ⟨⟨[], 0⟩, [], []⟩ :=
  ⟨(c5_extract_two_fields "5\x0212.34").1.mpr (by decide),
    (c5_extract_two_fields "5\x0212.34").2.1 "5" "12.34" (by decide),
    (c5_extract_two_fields "abc").2.2 (by decide) (fun _ => true) ⟨[], 0⟩⟩

/-- C2 counterexample: the claim says an empty `ids` value yields an absent
filter, but splitting the empty value on commas yields the one-element list
containing the empty string, so the code produces a present filter. -/
theorem c2_empty_ids_value_counterexample :
    parse_scale_ids [("ids", "")] = some [""] := by decide

/-- C2 amended: the filter is absent exactly when no query pair has key
`ids`; whenever the parameter is present — an empty value included — the
filter is present and is the concatenated comma-splits of all `ids` values
(an empty value contributing the single empty-string id), every split being
nonempty. -/
theorem c2_parse_ids (qs : List (String × String)) :
    (parse_scale_ids qs = none ↔ qs.filter (fun p => p.1 == "ids") = [])
      ∧ (∀ l, parse_scale_ids qs = some l →
          l = (qs.filter (fun p => p.1 == "ids")).flatMap
                (fun p => (splitOnChar ',' p.2.data).map String.mk)
            ∧ l ≠ []) := by
  have hne : ∀ p : String × String,
      ((splitOnChar ',' p.2.data).map String.mk) ≠ [] := fun p h =>
    splitOnChar_ne_nil ',' p.2.data (by simpa using h)
  have hg : ((qs.filter (fun p => p.1 == "ids")).flatMap
        (fun p => (splitOnChar ',' p.2.data).map String.mk) = [])
      ↔ qs.filter (fun p => p.1 == "ids") = [] := by
    constructor
    · intro h
      cases hf : qs.filter (fun p => p.1 == "ids") with
      | nil => rfl
      | cons a as =>
        rw [hf, List.flatMap_cons] at h
        exact absurd (List.append_eq_nil.mp h).1 (hne a)
    · intro h
      rw [h]
      rfl
  simp only [parse_scale_ids]
  by_cases h : ((qs.filter (fun p => p.1 == "ids")).flatMap
      (fun p => (splitOnChar ',' p.2.data).map String.mk)).length > 0
  · have hgne : (qs.filter (fun p => p.1 == "ids")).flatMap
        (fun p => (splitOnChar ',' p.2.data).map String.mk) ≠ [] := by
      intro hc
      rw [hc] at h
      simp at h
    rw [if_pos h]
    have hfne : qs.filter (fun p => p.1 == "ids") ≠ [] := fun hc => hgne (hg.mpr hc)
    refine ⟨iff_of_false (Option.some_ne_none _) hfne, ?_⟩
    intro l hl
    rw [Option.some.injEq] at hl
    exact ⟨hl.symm, hl ▸ hgne⟩
  · have hgnil : (qs.filter (fun p => p.1 == "ids")).flatMap
        (fun p => (splitOnChar ',' p.2.data).map String.mk) = [] := by
      rcases Nat.eq_zero_or_pos (((qs.filter (fun p => p.1 == "ids")).flatMap
        (fun p => (splitOnChar ',' p.2.data).map String.mk)).length) with h0 | hpos
      · exact List.length_eq_zero.mp h0
      · exact absurd hpos h
    rw [if_neg h]
    exact ⟨by simp [hg.mp hgnil], fun l hl => by cases hl⟩

/-- Witness for C2 amended: at the empty-value query the parsed filter is
the singleton list of the empty string, which is nonempty. -/
theorem c2_parse_ids_witness :
    ([""] : List String)
        = ([("ids", "")].filter (fun p => p.1 == "ids")).flatMap
            (fun p => (splitOnChar ',' p.2.data).map String.mk)
      ∧ ([""] : List String) ≠ [] :=
  (c2_parse_ids [("ids", "")]).2 [""] (by decide)

/-- C3 counterexample: the claim holds the frame well-formed for every sender
id, but the format string performs no JSON escaping, so the sender id
containing a double quote yields a frame that is not a well-formed two-key
JSON object (the recognizer rejects it). -/
theorem c3_unescaped_quote_counterexample :
    parseFrame (message_to_json "a\"b" "x") = none := by decide

/-- C3 amended: for every sender id whose characters are JSON-safe (no
quote, no backslash, no control character) and every payload, the outbound
frame is exactly the well-formed two-key JSON object with `scaleId` the
sender id and `data` the standard base64 of the payload's UTF-8 bytes; in
particular for sender id 5 and payload 12.34 lb the frame body is exactly
the string of the claim. -/
theorem c3_frame_encoding :
    (∀ s p : String, (∀ ch ∈ s.data, jsonSafe ch) →
        parseFrame (message_to_json s p)
          = some (s, String.mk (base64Encode (utf8Bytes p))))
      ∧ message_to_json "5" "12.34 lb"
          = "\x7b\"scaleId\":\"5\",\"data\":\"MTIuMzQgbGI=\"\x7d" := by
  refine ⟨?_, by decide⟩
  intro s p hs
  have h1 : ∀ rest, parseJsonStringAux (s.data ++ '"' :: rest) = some (s.data, rest) :=
    fun rest => parseJsonStringAux_safe s.data rest hs
  have h2 : ∀ rest, parseJsonStringAux (base64Encode (utf8Bytes p) ++ '"' :: rest)
      = some (base64Encode (utf8Bytes p), rest) :=
    fun rest => parseJsonStringAux_safe _ rest (base64Encode_safe (utf8Bytes p))
  have hmid : ("\",\"data\":\"").data = '"' :: (",\"data\":\"").data := rfl
  have hsfx : ("\"\x7d").data = '"' :: ("\x7d").data := rfl
  have hdata : (message_to_json s p).data
      = ("\x7b\"scaleId\":\"").data
          ++ (s.data ++ '"' :: ((",\"data\":\"").data
            ++ (base64Encode (utf8Bytes p) ++ '"' :: ("\x7d").data))) := by
    simp only [message_to_json, String.data_append, hmid, hsfx]
    simp [List.append_assoc]
  unfold parseFrame
  rw [hdata]
  simp only [parseFrameL, dropLead_append, h1, h2, dropLead_self]
  simp

/-- Witness for C3 amended: the concrete frame of the claim's example,
produced through the general theorem at sender id 5 and payload 12.34 lb. -/
theorem c3_frame_encoding_witness :
    parseFrame (message_to_json "5" "12.34 lb")
      = some ("5", String.mk (base64Encode (utf8Bytes "12.34 lb"))) :=
  c3_frame_encoding.1 "5" "12.34 lb" (by decide)

/-- C1 counterexample: the claim says `lastSent` is NOT updated on a send
failure, but the loop body (scale_server.rs lines 227-234) assigns
`last_message_sent = Some(payload)` unconditionally after the send, so on a
failing send the session's `lastSent` is updated to the payload all the
same (while its id is recorded for removal). -/
theorem c1_lastSent_updated_on_failure :
    (forward_step (fun _ => false) "5" "12.34" ⟨0, none, none⟩).1.last_message_sent
        = some "12.34"
      ∧ (forward_step (fun _ => false) "5" "12.34" ⟨0, none, none⟩).2.2 = some 0 := by
  constructor <;> decide

/-- C1 amended: for every session whose filter matches and whose lastSent
differs from the payload — if the send succeeds the post-pass state holds
that session with `lastSent = payload` and the frame was delivered to it;
if the send fails the session id is recorded for removal, the loop body
also sets its `lastSent` to the payload, and the session is absent from the
post-pass state; the recorded failing sessions are removed only after the
full iteration over all sessions. -/
theorem c1_forward_send_result (ok : Nat → Bool) (s : ScaleServer)
    (raw sid p : String) (h : extract_message raw = some (sid, p))
    (c : Connection) (hmem : c ∈ s.connections)
    (hnd : (s.connections.map Connection.id).Nodup)
    (hmatch : c.matches_filter sid = true) (hdup : c.is_duplicate p = false) :
    (ok c.id = true →
        { c with last_message_sent := some p }
            ∈ (forward_message ok s raw).state.connections
          ∧ (c.id, message_to_json sid p) ∈ (forward_message ok s raw).sent
          ∧ c.id ∉ (forward_message ok s raw).erred)
      ∧ (ok c.id = false →
          c.id ∈ (forward_message ok s raw).erred
            ∧ (forward_step ok sid p c).1.last_message_sent = some p
            ∧ ∀ c' ∈ (forward_message ok s raw).state.connections, c'.id ≠ c.id)
      ∧ (forward_message ok s raw).state.connections
          = (s.connections.map (fun x => (forward_step ok sid p x).1)).filter
              (fun x => !((forward_message ok s raw).erred.contains x.id)) := by
  have hcond : (c.matches_filter sid && !(c.is_duplicate p)) = true := by
    simp [hmatch, hdup]
  have hlast : (forward_step ok sid p c).1.last_message_sent = some p := by
    simp [forward_step, hcond]
  have hstate : (forward_message ok s raw).state.connections
      = (s.connections.map (fun x => (forward_step ok sid p x).1)).filter
          (fun x => !((forward_message ok s raw).erred.contains x.id)) := by
    rw [forward_message_erred ok s raw sid p h]
    exact forward_message_state_conns ok s raw sid p h
  refine ⟨?_, ?_, hstate⟩
  · intro ho
    have hnotin : c.id ∉ (forward_message ok s raw).erred := by
      rw [forward_message_erred ok s raw sid p h]
      intro hin
      obtain ⟨x, hx, hid, _, hxok⟩ :=
        mem_erred_forward ok sid p s.connections c.id hin
      rw [conn_inj hnd hx hmem hid.symm] at hxok
      rw [ho] at hxok
      cases hxok
    refine ⟨?_, ?_, hnotin⟩
    · rw [hstate]
      refine List.mem_filter.mpr ⟨?_, ?_⟩
      · exact List.mem_map.mpr ⟨c, hmem, by simp [forward_step, hcond]⟩
      · simpa using hnotin
    · rw [forward_message_sent ok s raw sid p h]
      exact List.mem_filterMap.mpr ⟨c, hmem, by simp [forward_step, hcond, ho]⟩
  · intro ho
    have hin : c.id ∈ (forward_message ok s raw).erred := by
      rw [forward_message_erred ok s raw sid p h]
      exact List.mem_filterMap.mpr ⟨c, hmem, by simp [forward_step, hcond, ho]⟩
    refine ⟨hin, hlast, ?_⟩
    intro c' hc'
    rw [hstate] at hc'
    have hpred := (List.mem_filter.mp hc').2
    simp only [Bool.not_eq_true'] at hpred
    intro hEq
    rw [hEq] at hpred
    simp at hpred
    exact hpred hin

/-- Witness for C1 amended: one filterless fresh session, a succeeding send
and the datagram 5 0x02 12.34: the post-state holds the session with
`lastSent` set to the payload. -/
theorem c1_forward_send_result_witness :
    ({ id := 0, filter_scale_ids := none,
        last_message_sent := some "12.34" } : Connection)
      ∈ (forward_message (fun _ => true)
          ⟨[⟨0, none, none⟩], 1⟩ "5\x0212.34").state.connections :=
  ((c1_forward_send_result (fun _ => true) ⟨[⟨0, none, none⟩], 1⟩ "5\x0212.34"
      "5" "12.34" (by decide) ⟨0, none, none⟩ (by decide) (by decide)
      (by decide) (by decide)).1 rfl).1

/-- C7: forward is side-effect-free except where specified — a datagram
that fails to parse leaves the whole state unchanged and sends nothing;
and every session that does not match the filter, or matches but holds the
payload as its lastSent, is untouched: it stays in the post state with all
fields unchanged, receives no frame, and is not recorded as erred. -/
theorem c7_forward_no_side_effects (ok : Nat → Bool) (s : ScaleServer) :
    (∀ raw, extract_message raw = none → forward_message ok s raw = ⟨s, [], []⟩)
      ∧ (∀ raw sid p c, extract_message raw = some (sid, p) →
          (s.connections.map Connection.id).Nodup → c ∈ s.connections →
          (c.matches_filter sid && !(c.is_duplicate p)) = false →
          c ∈ (forward_message ok s raw).state.connections
            ∧ framesTo c.id (forward_message ok s raw) = 0
            ∧ c.id ∉ (forward_message ok s raw).erred) := by
  refine ⟨fun raw h => forward_message_none ok s raw h, ?_⟩
  intro raw sid p c h hnd hmem hcond
  have hstep : (forward_step ok sid p c).1 = c := by
    simp [forward_step, hcond]
  have herr : c.id ∉ (forward_message ok s raw).erred := by
    rw [forward_message_erred ok s raw sid p h]
    intro hin
    obtain ⟨x, hx, hid, hcx, _⟩ :=
      mem_erred_forward ok sid p s.connections c.id hin
    rw [conn_inj hnd hx hmem hid.symm] at hcx
    rw [hcond] at hcx
    cases hcx
  refine ⟨?_, ?_, herr⟩
  · rw [forward_message_state_conns ok s raw sid p h]
    refine List.mem_filter.mpr ⟨List.mem_map.mpr ⟨c, hmem, hstep⟩, ?_⟩
    rw [← forward_message_erred ok s raw sid p h]
    simpa using herr
  · rw [framesTo, forward_message_sent ok s raw sid p h]
    rw [List.length_eq_zero]
    refine List.filter_eq_nil_iff.mpr ?_
    intro y hy
    obtain ⟨x, hx, hid, hcx, _, _⟩ :=
      mem_sent_forward ok sid p s.connections y hy
    simp only [beq_iff_eq, hid]
    intro hEq
    rw [conn_inj hnd hx hmem hEq] at hcx
    rw [hcond] at hcx
    cases hcx

/-- Witness for C7: a session filtered to sender 9 is untouched by the
datagram 5 0x02 12.34, and a separator-free datagram is a global no-op. -/
theorem c7_forward_no_side_effects_witness :
    forward_message (fun _ => true) ⟨[⟨0, some ["9"], none⟩], 1⟩ "abc"
        = ⟨⟨[⟨0, some ["9"], none⟩], 1⟩, [], []⟩
      ∧ ((⟨0, some ["9"], none⟩ : Connection)
            ∈ (forward_message (fun _ => true)
                ⟨[⟨0, some ["9"], none⟩], 1⟩ "5\x0212.34").state.connections
          ∧ framesTo 0 (forward_message (fun _ => true)
              ⟨[⟨0, some ["9"], none⟩], 1⟩ "5\x0212.34") = 0
          ∧ 0 ∉ (forward_message (fun _ => true)
              ⟨[⟨0, some ["9"], none⟩], 1⟩ "5\x0212.34").erred) :=
  ⟨(c7_forward_no_side_effects (fun _ => true) ⟨[⟨0, some ["9"], none⟩], 1⟩).1
      "abc" (by decide),
    (c7_forward_no_side_effects (fun _ => true) ⟨[⟨0, some ["9"], none⟩], 1⟩).2
      "5\x0212.34" "5" "12.34" ⟨0, some ["9"], none⟩ (by decide) (by decide)
      (by decide) (by decide)⟩

/-- C9: removal is idempotent — removing an absent id is a no-op on the
state, a close event is logged exactly when a session with that id was
present, removing twice equals removing once, and once removed, forward and
heartbeat passes neither deliver to that id, nor record it as erred, nor
even attempt a send to it (its id is absent from the iterated map). -/
theorem c9_remove_idempotent (s : ScaleServer) (i : Nat) :
    ((∀ c ∈ s.connections, c.id ≠ i) → remove_connection s i = s)
      ∧ (remove_logs_close s i = true ↔ ∃ c ∈ s.connections, c.id = i)
      ∧ remove_connection (remove_connection s i) i = remove_connection s i
      ∧ (∀ (ok : Nat → Bool) (raw : String),
          framesTo i (forward_message ok (remove_connection s i) raw) = 0
            ∧ i ∉ (forward_message ok (remove_connection s i) raw).erred
            ∧ i ∉ (send_heartbeats ok (remove_connection s i)).2
            ∧ i ∉ (remove_connection s i).connections.map Connection.id) := by
  have hno : ∀ c ∈ (remove_connection s i).connections, c.id ≠ i := by
    intro c hc
    have := (List.mem_filter.mp hc).2
    simpa using this
  refine ⟨?_, ?_, ?_, ?_⟩
  · intro h
    cases s with
    | mk conns next =>
      simp only [remove_connection, ScaleServer.mk.injEq, and_true]
      refine List.filter_eq_self.mpr ?_
      intro c hc
      simpa using h c hc
  · simp [remove_logs_close, List.any_eq_true]
  · simp only [remove_connection, ScaleServer.mk.injEq, and_true]
    rw [List.filter_filter]
    exact List.filter_congr (fun c hc => by simp)
  · intro ok raw
    have hmap : i ∉ (remove_connection s i).connections.map Connection.id := by
      intro hin
      obtain ⟨x, hx, hxi⟩ := List.mem_map.mp hin
      exact hno x hx hxi
    refine ⟨?_, ?_, ?_, hmap⟩
    · cases hex : extract_message raw with
      | none => rw [forward_message_none ok _ raw hex]; rfl
      | some pr =>
        rw [framesTo, forward_message_sent ok _ raw pr.1 pr.2 (by rw [hex])]
        rw [List.length_eq_zero]
        refine List.filter_eq_nil_iff.mpr ?_
        intro y hy
        obtain ⟨x, hx, hid, _, _, _⟩ :=
          mem_sent_forward ok pr.1 pr.2 (remove_connection s i).connections y hy
        simp only [beq_iff_eq, hid]
        exact hno x hx
    · cases hex : extract_message raw with
      | none => rw [forward_message_none ok _ raw hex]; simp
      | some pr =>
        rw [forward_message_erred ok _ raw pr.1 pr.2 (by rw [hex])]
        intro hin
        obtain ⟨x, hx, hid, _, _⟩ :=
          mem_erred_forward ok pr.1 pr.2 (remove_connection s i).connections i hin
        exact hno x hx hid.symm
    · intro hin
      simp only [send_heartbeats] at hin
      obtain ⟨x, hx, hxi⟩ := List.mem_map.mp hin
      exact hno x ((List.mem_filter.mp hx).1) hxi

/-- Witness for C9: with one session of id 0, removing the absent id 5 is a
no-op, a close is logged for id 0 since that session is present, and after
removing id 0 the heartbeat pass does not record it. -/
theorem c9_remove_idempotent_witness :
    remove_connection ⟨[⟨0, none, none⟩], 1⟩ 5 = ⟨[⟨0, none, none⟩], 1⟩
      ∧ (remove_logs_close ⟨[⟨0, none, none⟩], 1⟩ 0 = true
          ↔ ∃ c ∈ [(⟨0, none, none⟩ : Connection)], c.id = 0)
      ∧ 0 ∉ (send_heartbeats (fun _ => false)
          (remove_connection ⟨[⟨0, none, none⟩], 1⟩ 0)).2 :=
  ⟨(c9_remove_idempotent ⟨[⟨0, none, none⟩], 1⟩ 5).1 (by decide),
    (c9_remove_idempotent ⟨[⟨0, none, none⟩], 1⟩ 0).2.1,
    ((c9_remove_idempotent ⟨[⟨0, none, none⟩], 1⟩ 0).2.2.2
        (fun _ => false) "x").2.2.1⟩

/-- C10: a heartbeat pass mutates no field of any surviving session — every
session whose heartbeat send succeeds remains in the post state as the very
same record (same id, filter and lastSent); every session whose send fails
is recorded and absent afterwards; nothing else enters the map and the id
counter is unchanged. -/
theorem c10_heartbeat_effect (ok : Nat → Bool) (s : ScaleServer)
    (hnd : (s.connections.map Connection.id).Nodup) :
    (∀ c ∈ s.connections, ok c.id = true →
        c ∈ (send_heartbeats ok s).1.connections)
      ∧ (∀ c ∈ s.connections, ok c.id = false →
          c.id ∈ (send_heartbeats ok s).2
            ∧ ∀ c' ∈ (send_heartbeats ok s).1.connections, c'.id ≠ c.id)
      ∧ (∀ c' ∈ (send_heartbeats ok s).1.connections, c' ∈ s.connections)
      ∧ (send_heartbeats ok s).1.next_connection_id = s.next_connection_id := by
  have hconns : (send_heartbeats ok s).1.connections
      = s.connections.filter
          (fun c => !(((s.connections.filter (fun x => !(ok x.id))).map
              (fun x => x.id)).contains c.id)) := heartbeats_conns ok s
  refine ⟨?_, ?_, ?_, ?_⟩
  · intro c hc hokc
    rw [hconns]
    refine List.mem_filter.mpr ⟨hc, ?_⟩
    have hnotin : c.id ∉ (s.connections.filter (fun x => !(ok x.id))).map
        (fun x => x.id) := by
      intro hin
      obtain ⟨x, hx, hxi⟩ := List.mem_map.mp hin
      obtain ⟨hxconn, hxok⟩ := List.mem_filter.mp hx
      rw [conn_inj hnd hxconn hc hxi] at hxok
      rw [hokc] at hxok
      simp at hxok
    simpa using hnotin
  · intro c hc hokc
    have hcin : c.id ∈ (s.connections.filter (fun x => !(ok x.id))).map
        (fun x => x.id) :=
      List.mem_map.mpr ⟨c, List.mem_filter.mpr ⟨hc, by simp [hokc]⟩, rfl⟩
    refine ⟨by simp only [send_heartbeats]; exact hcin, ?_⟩
    intro c' hc'
    rw [hconns] at hc'
    have hpred := (List.mem_filter.mp hc').2
    simp only [Bool.not_eq_true'] at hpred
    intro hEq
    rw [hEq] at hpred
    have hcont : ((s.connections.filter (fun x => !(ok x.id))).map
        (fun x => x.id)).contains c.id = true := by
      simpa using hcin
    rw [hcont] at hpred
    cases hpred
  · intro c' hc'
    rw [hconns] at hc'
    exact (List.mem_filter.mp hc').1
  · simp only [send_heartbeats]
    exact foldl_remove_next _ _

/-- Witness for C10: two sessions, the heartbeat to id 0 succeeds and the
one to id 1 fails — session 0 survives unchanged, id 1 is recorded, and the
id counter stays 2. -/
theorem c10_heartbeat_effect_witness :
    ((⟨0, none, some "x"⟩ : Connection) ∈ (send_heartbeats (fun i => i == 0)
        ⟨[⟨0, none, some "x"⟩, ⟨1, none, none⟩], 2⟩).1.connections)
      ∧ (1 ∈ (send_heartbeats (fun i => i == 0)
            ⟨[⟨0, none, some "x"⟩, ⟨1, none, none⟩], 2⟩).2)
      ∧ (send_heartbeats (fun i => i == 0)
          ⟨[⟨0, none, some "x"⟩, ⟨1, none, none⟩], 2⟩).1.next_connection_id = 2 :=
  ⟨(c10_heartbeat_effect (fun i => i == 0)
        ⟨[⟨0, none, some "x"⟩, ⟨1, none, none⟩], 2⟩ (by decide)).1
      ⟨0, none, some "x"⟩ (by decide) (by decide),
    ((c10_heartbeat_effect (fun i => i == 0)
        ⟨[⟨0, none, some "x"⟩, ⟨1, none, none⟩], 2⟩ (by decide)).2.1
      ⟨1, none, none⟩ (by decide) (by decide)).1,
    (c10_heartbeat_effect (fun i => i == 0)
        ⟨[⟨0, none, some "x"⟩, ⟨1, none, none⟩], 2⟩ (by decide)).2.2.2⟩

/-- C4: duplicate suppression — with all sends succeeding, forwarding the
same payload for the same sender twice in a row yields exactly one frame to
a matching session (one on the first pass, none on the second); forwarding
any distinct payload in between makes the third pass deliver the original
payload again; and clearing the session's history (any inbound non-ping,
non-close client frame) makes the repeat deliver again. -/
theorem c4_dedup (ok : Nat → Bool) (s : ScaleServer) (raw sid p : String)
    (h : extract_message raw = some (sid, p)) (c : Connection)
    (hmem : c ∈ s.connections) (hnd : (s.connections.map Connection.id).Nodup)
    (hm : c.matches_filter sid = true) (hok : ∀ i, ok i = true) :
    (c.is_duplicate p = false →
        framesTo c.id (forward_message ok s raw) = 1
          ∧ framesTo c.id
              (forward_message ok (forward_message ok s raw).state raw) = 0)
      ∧ (∀ raw2 sid2 p2, extract_message raw2 = some (sid2, p2) →
          c.matches_filter sid2 = true → p2 ≠ p →
          framesTo c.id (forward_message ok
              (forward_message ok (forward_message ok s raw).state raw2).state
              raw) = 1)
      ∧ framesTo c.id (forward_message ok
            (clear_message_history (forward_message ok s raw).state c.id)
            raw) = 1 := by
  have hconns1 : (forward_message ok s raw).state.connections
      = s.connections.map (fun x => (forward_step ok sid p x).1) :=
    forward_ok_conns ok s raw sid p h hok
  have hnd1 : ((forward_message ok s raw).state.connections.map
      Connection.id).Nodup := by
    rw [hconns1, stepped_map_id]
    exact hnd
  have hm1 : Connection.matches_filter
      { c with last_message_sent := some p } sid = true := hm
  have hdup1 : Connection.is_duplicate
      { c with last_message_sent := some p } p = true := beq_self_eq_true p
  have hc1mem : ({ c with last_message_sent := some p } : Connection)
      ∈ (forward_message ok s raw).state.connections := by
    rw [hconns1]
    by_cases hd : c.is_duplicate p = true
    · have hlastc := dup_last c p hd
      have hceq : ({ c with last_message_sent := some p } : Connection) = c := by
        rw [← hlastc]
      have hcond : (c.matches_filter sid && !(c.is_duplicate p)) = false := by
        simp [hd]
      rw [hceq]
      exact List.mem_map.mpr ⟨c, hmem, by simp [forward_step, hcond]⟩
    · have hcond : (c.matches_filter sid && !(c.is_duplicate p)) = true := by
        simp [hm, Bool.not_eq_true] at hd ⊢
        simp [hd]
      exact List.mem_map.mpr ⟨c, hmem, by simp [forward_step, hcond]⟩
  refine ⟨?_, ?_, ?_⟩
  · intro hd
    constructor
    · have h1 := framesTo_forward ok s raw sid p h c hmem hnd hok
      rw [if_pos (by simp [hm, hd])] at h1
      exact h1
    · have h2 := framesTo_forward ok (forward_message ok s raw).state raw sid p h
        { c with last_message_sent := some p } hc1mem hnd1 hok
      rw [if_neg (by simp [hm1, hdup1])] at h2
      exact h2
  · intro raw2 sid2 p2 h2 hm2 hne
    have hm2' : Connection.matches_filter
        { c with last_message_sent := some p } sid2 = true := hm2
    have hd2 : Connection.is_duplicate
        { c with last_message_sent := some p } p2 = false :=
      beq_eq_false_iff_ne.mpr (fun hq => hne hq.symm)
    have hcond2 : (Connection.matches_filter
          { c with last_message_sent := some p } sid2
        && !(Connection.is_duplicate
          { c with last_message_sent := some p } p2)) = true := by
      simp [hm2', hd2]
    have hconns2 : (forward_message ok (forward_message ok s raw).state
        raw2).state.connections
        = (forward_message ok s raw).state.connections.map
            (fun x => (forward_step ok sid2 p2 x).1) :=
      forward_ok_conns ok (forward_message ok s raw).state raw2 sid2 p2 h2 hok
    have hnd2 : ((forward_message ok (forward_message ok s raw).state
        raw2).state.connections.map Connection.id).Nodup := by
      rw [hconns2, stepped_map_id]
      exact hnd1
    have hc2mem : ({ c with last_message_sent := some p2 } : Connection)
        ∈ (forward_message ok (forward_message ok s raw).state
            raw2).state.connections := by
      rw [hconns2]
      exact List.mem_map.mpr ⟨{ c with last_message_sent := some p }, hc1mem,
        by simp [forward_step, hcond2]⟩
    have hm3 : Connection.matches_filter
        { c with last_message_sent := some p2 } sid = true := hm
    have hd3 : Connection.is_duplicate
        { c with last_message_sent := some p2 } p = false :=
      beq_eq_false_iff_ne.mpr hne
    have h3 := framesTo_forward ok (forward_message ok
        (forward_message ok s raw).state raw2).state raw sid p h
      { c with last_message_sent := some p2 } hc2mem hnd2 hok
    rw [if_pos (by simp [hm3, hd3])] at h3
    exact h3
  · have hndc : ((clear_message_history (forward_message ok s raw).state
        c.id).connections.map Connection.id).Nodup := by
      rw [clear_map_id]
      exact hnd1
    have hcmem : ({ c with last_message_sent := none } : Connection)
        ∈ (clear_message_history (forward_message ok s raw).state
            c.id).connections := by
      simp only [clear_message_history]
      refine List.mem_map.mpr ⟨{ c with last_message_sent := some p }, hc1mem, ?_⟩
      simp
    have hmc : Connection.matches_filter
        { c with last_message_sent := none } sid = true := hm
    have hdc : Connection.is_duplicate
        { c with last_message_sent := none } p = false := rfl
    have hc := framesTo_forward ok (clear_message_history
        (forward_message ok s raw).state c.id) raw sid p h
      { c with last_message_sent := none } hcmem hndc hok
    rw [if_pos (by simp [hmc, hdc])] at hc
    exact hc

/-- Witness for C4: one fresh filterless session and the datagram
5 0x02 12.34 forwarded twice: one frame on the first pass, none on the
second. -/
theorem c4_dedup_witness :
    framesTo 0 (forward_message (fun _ => true)
        ⟨[⟨0, none, none⟩], 1⟩ "5\x0212.34") = 1
      ∧ framesTo 0 (forward_message (fun _ => true)
          (forward_message (fun _ => true)
            ⟨[⟨0, none, none⟩], 1⟩ "5\x0212.34").state "5\x0212.34") = 0 :=
  (c4_dedup (fun _ => true) ⟨[⟨0, none, none⟩], 1⟩ "5\x0212.34" "5" "12.34"
      (by decide) ⟨0, none, none⟩ (by decide) (by decide) (by decide)
      (fun _ => rfl)).1 rfl

theorem sysStep_next_mono (ok : Nat → Bool) (s : Sys) (op : SysOp) :
    s.server.next_connection_id ≤ (sysStep ok s op).1.server.next_connection_id := by
  cases op with
  | addConn f => exact Nat.le_succ _
  | removeConn i => exact Nat.le_refl _
  | clearHist i => exact Nat.le_refl _
  | fwd raw =>
    simp only [sysStep]
    rw [forward_next_eq]
  | hb =>
    simp only [sysStep, send_heartbeats]
    rw [foldl_remove_next]
  | addObs => exact Nat.le_refl _
  | removeObs i => exact Nat.le_refl _

theorem sysStep_obs_next_mono (ok : Nat → Bool) (s : Sys) (op : SysOp) :
    s.listener.next_observer_id ≤ (sysStep ok s op).1.listener.next_observer_id := by
  cases op with
  | addObs => exact Nat.le_succ _
  | addConn f => exact Nat.le_refl _
  | removeConn i => exact Nat.le_refl _
  | clearHist i => exact Nat.le_refl _
  | fwd raw => exact Nat.le_refl _
  | hb => exact Nat.le_refl _
  | removeObs i => exact Nat.le_refl _

theorem sysStep_connRet (ok : Nat → Bool) (s : Sys) (op : SysOp) (i : Nat)
    (h : (sysStep ok s op).2.1 = some i) :
    i = s.server.next_connection_id
      ∧ (sysStep ok s op).1.server.next_connection_id
          = s.server.next_connection_id + 1 := by
  cases op with
  | addConn f =>
    simp only [sysStep, add_connection, Option.some.injEq] at h
    exact ⟨h.symm, rfl⟩
  | removeConn i => simp [sysStep] at h
  | clearHist i => simp [sysStep] at h
  | fwd raw => simp [sysStep] at h
  | hb => simp [sysStep] at h
  | addObs => simp [sysStep] at h
  | removeObs i => simp [sysStep] at h

theorem sysStep_obsRet (ok : Nat → Bool) (s : Sys) (op : SysOp) (i : Nat)
    (h : (sysStep ok s op).2.2 = some i) :
    i = s.listener.next_observer_id
      ∧ (sysStep ok s op).1.listener.next_observer_id
          = s.listener.next_observer_id + 1 := by
  cases op with
  | addObs =>
    simp only [sysStep, add_observer, Option.some.injEq] at h
    exact ⟨h.symm, rfl⟩
  | addConn f => simp [sysStep] at h
  | removeConn i => simp [sysStep] at h
  | clearHist i => simp [sysStep] at h
  | fwd raw => simp [sysStep] at h
  | hb => simp [sysStep] at h
  | removeObs i => simp [sysStep] at h

theorem runOps_conn_lb (ok : Nat → Bool) : ∀ (ops : List SysOp) (s : Sys) (i : Nat),
    i ∈ (runOps ok s ops).1 → s.server.next_connection_id ≤ i
  | [], s, i => by simp [runOps]
  | op :: ops, s, i => by
    simp only [runOps]
    intro hi
    rcases List.mem_append.mp hi with hhead | htail
    · cases hr : (sysStep ok s op).2.1 with
      | none => rw [hr] at hhead; cases hhead
      | some j =>
        rw [hr] at hhead
        simp at hhead
        subst hhead
        exact (sysStep_connRet ok s op i hr).1.ge
    · calc s.server.next_connection_id
          ≤ (sysStep ok s op).1.server.next_connection_id :=
            sysStep_next_mono ok s op
      _ ≤ i := runOps_conn_lb ok ops (sysStep ok s op).1 i htail

theorem runOps_obs_lb (ok : Nat → Bool) : ∀ (ops : List SysOp) (s : Sys) (i : Nat),
    i ∈ (runOps ok s ops).2 → s.listener.next_observer_id ≤ i
  | [], s, i => by simp [runOps]
  | op :: ops, s, i => by
    simp only [runOps]
    intro hi
    rcases List.mem_append.mp hi with hhead | htail
    · cases hr : (sysStep ok s op).2.2 with
      | none => rw [hr] at hhead; cases hhead
      | some j =>
        rw [hr] at hhead
        simp at hhead
        subst hhead
        exact (sysStep_obsRet ok s op i hr).1.ge
    · calc s.listener.next_observer_id
          ≤ (sysStep ok s op).1.listener.next_observer_id :=
            sysStep_obs_next_mono ok s op
      _ ≤ i := runOps_obs_lb ok ops (sysStep ok s op).1 i htail

theorem runOps_conn_pairwise (ok : Nat → Bool) :
    ∀ (ops : List SysOp) (s : Sys), List.Pairwise (· < ·) (runOps ok s ops).1
  | [], s => by simp [runOps]
  | op :: ops, s => by
    simp only [runOps]
    rw [List.pairwise_append]
    refine ⟨?_, runOps_conn_pairwise ok ops (sysStep ok s op).1, ?_⟩
    · cases (sysStep ok s op).2.1 <;> simp
    · intro a ha b hb
      cases hr : (sysStep ok s op).2.1 with
      | none => rw [hr] at ha; cases ha
      | some j =>
        rw [hr] at ha
        simp at ha
        subst ha
        obtain ⟨hj, hnext⟩ := sysStep_connRet ok s op a hr
        have hb' := runOps_conn_lb ok ops (sysStep ok s op).1 b hb
        rw [hnext] at hb'
        omega

theorem runOps_obs_pairwise (ok : Nat → Bool) :
    ∀ (ops : List SysOp) (s : Sys), List.Pairwise (· < ·) (runOps ok s ops).2
  | [], s => by simp [runOps]
  | op :: ops, s => by
    simp only [runOps]
    rw [List.pairwise_append]
    refine ⟨?_, runOps_obs_pairwise ok ops (sysStep ok s op).1, ?_⟩
    · cases (sysStep ok s op).2.2 <;> simp
    · intro a ha b hb
      cases hr : (sysStep ok s op).2.2 with
      | none => rw [hr] at ha; cases ha
      | some j =>
        rw [hr] at ha
        simp at ha
        subst ha
        obtain ⟨hj, hnext⟩ := sysStep_obsRet ok s op a hr
        have hb' := runOps_obs_lb ok ops (sysStep ok s op).1 b hb
        rw [hnext] at hb'
        omega

/-- C8: session ids and observer ids come from two independent counters —
over any sequence of operations, the ids returned by the connection adds
are strictly increasing (hence never reused), likewise the ids returned by
the observer adds; adding a connection leaves the observer registry intact,
and adding an observer leaves the session registry intact. -/
theorem c8_id_allocation (ok : Nat → Bool) (s : Sys) (ops : List SysOp) :
    List.Pairwise (· < ·) (runOps ok s ops).1
      ∧ List.Pairwise (· < ·) (runOps ok s ops).2
      ∧ (runOps ok s ops).1.Nodup
      ∧ (runOps ok s ops).2.Nodup
      ∧ (∀ f, (sysStep ok s (SysOp.addConn f)).1.listener = s.listener)
      ∧ (sysStep ok s SysOp.addObs).1.server = s.server :=
  ⟨runOps_conn_pairwise ok ops s, runOps_obs_pairwise ok ops s,
    (runOps_conn_pairwise ok ops s).imp Nat.ne_of_lt,
    (runOps_obs_pairwise ok ops s).imp Nat.ne_of_lt,
    fun _ => rfl, rfl⟩

end Scale
